import Mathlib

/-!
Verification of the voice-clone-assistant frontend controller
(src/frontend/script.js), shallowly embedded in Lean 4.

The script holds two globals, `mediaRecorder` and `chunks`; a click handler
toggles recording, `ondataavailable` pushes chunks, `onstop` calls
`sendAudio`, which concatenates the chunks into a blob, POSTs a multipart
form, and decodes the JSON response's hex `audio` field via
`data.audio.match(/.{1,2}/g).map(byte => parseInt(byte, 16))` into a
`Uint8Array` assigned as the playback source.
-/

namespace VoiceClone

/-! ## Hex decoding (`sendAudio`, response phase)

`data.audio.match(/.{1,2}/g)` splits the string into groups of one or two
code points; the regex `.` does not match the ECMAScript line terminators
(LF, CR, U+2028, U+2029), and `match` with a global regex returns `null`
when there is no match at all.  Each group goes through `parseInt(g, 16)`
(leading-whitespace trim, optional sign, optional `0x`/`0X`, then the
longest leading run of hex digits; no digits gives NaN), and the resulting
numbers are stored into a `Uint8Array` (NaN becomes 0, integers are taken
modulo 256). -/

/-- ECMAScript line terminators, which `.` in a regex does not match. -/
def isLineTerm (c : Char) : Bool :=
  c.toNat = 0xA || c.toNat = 0xD || c.toNat = 0x2028 || c.toNat = 0x2029

/-- The grouping performed by `match(/.{1,2}/g)`: greedy groups of two
non-line-terminator characters, a lone trailing character forms a group of
one, and line terminators are skipped unmatched. -/
def chunk12 : List Char → List (List Char)
  | [] => []
  | [c] => if isLineTerm c then [] else [[c]]
  | c :: d :: rest =>
    if isLineTerm c then chunk12 (d :: rest)
    else if isLineTerm d then [c] :: chunk12 rest
    else [c, d] :: chunk12 rest

/-- Value of a single hexadecimal digit character, `none` otherwise. -/
def hexVal (c : Char) : Option Nat :=
  if 48 ≤ c.toNat ∧ c.toNat ≤ 57 then some (c.toNat - 48)
  else if 97 ≤ c.toNat ∧ c.toNat ≤ 102 then some (c.toNat - 87)
  else if 65 ≤ c.toNat ∧ c.toNat ≤ 70 then some (c.toNat - 55)
  else none

/-- ECMAScript WhiteSpace and LineTerminator, as trimmed by `parseInt`. -/
def isJsWhitespace (c : Char) : Bool :=
  c.toNat = 0x9 || c.toNat = 0xA || c.toNat = 0xB || c.toNat = 0xC ||
  c.toNat = 0xD || c.toNat = 0x20 || c.toNat = 0xA0 || c.toNat = 0x1680 ||
  (0x2000 ≤ c.toNat && c.toNat ≤ 0x200A) || c.toNat = 0x2028 ||
  c.toNat = 0x2029 || c.toNat = 0x202F || c.toNat = 0x205F ||
  c.toNat = 0x3000 || c.toNat = 0xFEFF

/-- Fold the longest leading run of hex digits left to right. -/
def hexRunValue (acc : Nat) : List Char → Nat
  | [] => acc
  | c :: rest =>
    match hexVal c with
    | none => acc
    | some x => hexRunValue (acc * 16 + x) rest

/-- Whether the list starts with a hex digit (so `parseInt` yields a number
rather than NaN). -/
def startsWithHexDigit : List Char → Bool
  | [] => false
  | c :: _ => (hexVal c).isSome

/-- Optional `+`/`-` sign: its value, and the rest of the string. -/
def stripSign : List Char → Int × List Char
  | c :: rest =>
    if c.toNat = 45 then (-1, rest)
    else if c.toNat = 43 then (1, rest)
    else (1, c :: rest)
  | [] => (1, [])

/-- With radix 16, a leading `0x`/`0X` is stripped. -/
def strip0x : List Char → List Char
  | z :: x :: rest =>
    if z.toNat = 48 ∧ (x.toNat = 120 ∨ x.toNat = 88) then rest
    else z :: x :: rest
  | l => l

/-- `parseInt(s, 16)`: trim leading whitespace, take an optional sign, strip
a leading `0x`/`0X`, then read the longest leading run of hex digits.
`none` models the NaN result. -/
def jsParseInt16 (s : List Char) : Option Int :=
  let p := stripSign (s.dropWhile isJsWhitespace)
  let t := strip0x p.2
  if startsWithHexDigit t then some (p.1 * (hexRunValue 0 t : Nat))
  else none

/-- `ToUint8`, the conversion applied by a `Uint8Array` store: NaN becomes
0, and an integer is taken modulo 2^8. -/
def toUint8 : Option Int → Nat
  | none => 0
  | some i => (i % 256).toNat

/-- The decoder of `sendAudio`:
`data.audio.match(/.{1,2}/g).map(byte => parseInt(byte, 16))` collected
into a `Uint8Array`.  `none` models the thrown TypeError when `match`
returns `null` (no group at all) and `.map` is invoked on it. -/
def decodeHexAudio (s : List Char) : Option (List Nat) :=
  match chunk12 s with
  | [] => none
  | gs => some (gs.map (fun g => toUint8 (jsParseInt16 g)))

/-! ## Reference encoder and pair grouping (spec side)

These two definitions follow the spec's words, for the round-trip and
odd-length claims: encoding a byte sequence as lowercase two-digit hex
pairs, and grouping a string into consecutive two-character groups. -/

/-- Lowercase hex digit character for a value below 16. -/
def hexDigitChar : Nat → Char
  | 0 => '0' | 1 => '1' | 2 => '2' | 3 => '3' | 4 => '4'
  | 5 => '5' | 6 => '6' | 7 => '7' | 8 => '8' | 9 => '9'
  | 10 => 'a' | 11 => 'b' | 12 => 'c' | 13 => 'd' | 14 => 'e'
  | _ => 'f'

/-- A byte as its two lowercase hex digits, most significant nibble first. -/
def encodeByte (b : Nat) : List Char :=
  [hexDigitChar (b / 16), hexDigitChar (b % 16)]

/-- Modelled from the spec: a byte sequence encoded as lowercase two-digit
hex pairs (the inverse transform the round-trip property quantifies over;
the repository has no encoder, the server side is not in the sources). -/
def encodeHex (B : List Nat) : List Char :=
  (B.map encodeByte).flatten

/-- Plain grouping into consecutive two-character groups (the spec's
"splitting it into two-character groups"), with a lone trailing
character forming a final group of one. -/
def pairChunks : List Char → List (List Char)
  | [] => []
  | [c] => [[c]]
  | c :: d :: rest => [c, d] :: pairChunks rest

/-! ## Recording session controller (serialized event-loop model)

Globals of the script: `mediaRecorder` (undefined, or a recorder whose
reported state is recording/inactive) and `chunks` (never cleared).
Events are serialized by the event loop: a click runs the toggle handler,
a data event appends to `chunks`, and a stop performs `sendAudio`'s
upload of `new Blob(chunks)`.  In this coarse model the stream acquisition
inside the click handler completes atomically with the click. -/

/-- A chunk is a byte sequence; `new Blob(chunks)` concatenates them in
order. -/
def blobOfChunks (cs : List (List Nat)) : List Nat := cs.flatten

structure ControllerState where
  mediaRecorder : Option Bool
  chunks : List (List Nat)
  uploads : List (List Nat)
  deriving DecidableEq, Repr

/-- Initial page state: `mediaRecorder` undefined, `chunks = []`, nothing
uploaded. -/
def initState : ControllerState :=
  { mediaRecorder := none, chunks := [], uploads := [] }

/-- The `!mediaRecorder || mediaRecorder.state === "inactive"` test of the
click handler. -/
def toggleCheck (s : ControllerState) : Bool :=
  match s.mediaRecorder with
  | none => true
  | some active => !active

inductive Event where
  | toggle
  | data (chunk : List Nat)
  deriving DecidableEq, Repr

/-- One serialized event: a toggle either starts a fresh recorder (without
touching `chunks`) or stops the active one, whose `onstop` runs `sendAudio`
and records one upload of the blob of the current `chunks`; a data event
(`ondataavailable`) pushes its chunk while recording. -/
def step (s : ControllerState) : Event → ControllerState
  | .toggle =>
    if toggleCheck s then { s with mediaRecorder := some true }
    else { s with mediaRecorder := some false,
                  uploads := s.uploads ++ [blobOfChunks s.chunks] }
  | .data c =>
    if s.mediaRecorder = some true then { s with chunks := s.chunks ++ [c] }
    else s

def run (s : ControllerState) (es : List Event) : ControllerState :=
  es.foldl step s

/-- One record-then-upload cycle: toggle on, deliver the chunks, toggle
off. -/
def sessionEvents (cs : List (List Nat)) : List Event :=
  Event.toggle :: (cs.map Event.data ++ [Event.toggle])

/-! ## Fine-grained model of the click handler

`getUserMedia` is awaited inside the click handler, so a second click can
run its `!mediaRecorder || inactive` check while the first click's stream
acquisition is still suspended.  This model makes the suspension point
explicit: `click` runs the handler up to the `await` (or the `stop()`
branch), `acquire` resumes one suspended continuation, constructing and
starting a fresh recorder and overwriting the `mediaRecorder` variable;
a recorder that loses the variable keeps capturing. -/

structure FineState where
  mediaRecorder : Option Nat
  handles : List Bool
  pending : Nat
  deriving DecidableEq, Repr

def fineInit : FineState := { mediaRecorder := none, handles := [], pending := 0 }

/-- The click handler's test against the recorder currently referenced by
the `mediaRecorder` variable. -/
def fineCheck (s : FineState) : Bool :=
  match s.mediaRecorder with
  | none => true
  | some i => !(s.handles.getD i false)

inductive FEvent where
  | click
  | acquire
  deriving DecidableEq, Repr

def fstep (s : FineState) : FEvent → FineState
  | .click =>
    if fineCheck s then { s with pending := s.pending + 1 }
    else
      match s.mediaRecorder with
      | some i => { s with handles := s.handles.set i false }
      | none => s
  | .acquire =>
    match s.pending with
    | 0 => s
    | p + 1 =>
      { mediaRecorder := some s.handles.length,
        handles := s.handles ++ [true],
        pending := p }

def fineRun (s : FineState) (es : List FEvent) : FineState :=
  es.foldl fstep s

/-- A serialized toggle: the stream acquisition of a starting click
completes before anything else runs. -/
def atomicToggle (s : FineState) : FineState :=
  if fineCheck s then fstep (fstep s .click) .acquire else fstep s .click

def countActive (s : FineState) : Nat := s.handles.count true

/-- Invariant of serialized runs: no continuation is suspended, and either
no recorder was ever created, or only the most recently created recorder
(the one the `mediaRecorder` variable references) can still be active. -/
def FineInv (s : FineState) : Prop :=
  s.pending = 0 ∧
  ((s.mediaRecorder = none ∧ s.handles = []) ∨
   (∃ front last, s.handles = front ++ [last] ∧ front.count true = 0 ∧
      s.mediaRecorder = some front.length))

/-! ## The upload request built by `sendAudio` -/

structure FormPart where
  name : String
  filename : String
  contentType : String
  payload : List Nat
  deriving DecidableEq, Repr

structure Request where
  method : String
  url : String
  parts : List FormPart
  deriving DecidableEq, Repr

/-- The single `fetch` of `sendAudio`: a POST to the fixed endpoint with
the `voice_id` query parameter, body a form with the one `audio` part,
filename `audio.wav`, blob type `audio/wav`, payload the concatenated
chunks. -/
def sendAudioRequest (cs : List (List Nat)) : Request :=
  { method := "POST",
    url := "http://localhost:8000/assistant?voice_id=your-id-here",
    parts := [{ name := "audio", filename := "audio.wav",
                contentType := "audio/wav", payload := blobOfChunks cs }] }

/-! ## `sendAudio` response phase and playback effect

`sendAudio` is an async function with no try/catch: a rejected `fetch`, a
rejected `res.json()`, or a TypeError thrown while decoding aborts the
rest of the body as an unhandled rejection, before the assignment to the
playback element's `src`. -/

inductive JsErr where
  | fetchFailed
  | jsonParseFailed
  | typeErrorUndefined
  | typeErrorNullMap
  deriving DecidableEq, Repr

inductive RespBody where
  | invalidJson
  | validJson (audioField : Option (List Char))
  deriving DecidableEq, Repr

inductive Fetched where
  | failure
  | success (body : RespBody)
  deriving DecidableEq, Repr

/-- The awaited tail of `sendAudio` after the request is sent: parse JSON,
read `data.audio` (`.match` on `undefined` throws), decode the hex
(`.map` on a `null` match result throws), and produce the decoded bytes
for the new `src`.  `Except.error` models an unhandled rejection. -/
def sendAudioResponsePhase : Fetched → Except JsErr (List Nat)
  | .failure => .error .fetchFailed
  | .success .invalidJson => .error .jsonParseFailed
  | .success (.validJson none) => .error .typeErrorUndefined
  | .success (.validJson (some s)) =>
    match decodeHexAudio s with
    | none => .error .typeErrorNullMap
    | some bytes => .ok bytes

/-- The playback element's `src` after one `sendAudio` exchange, together
with the escaped rejection if any: only a fully successful exchange
reassigns `src`. -/
def sendAudioEffect (prevSrc : Option (List Nat)) (r : Fetched) :
    Option (List Nat) × Option JsErr :=
  match sendAudioResponsePhase r with
  | .ok bytes => (some bytes, none)
  | .error e => (prevSrc, some e)

/-! ## Lemmas about the hex decoder -/

theorem hexVal_ranges {c : Char} {x : Nat} (h : hexVal c = some x) :
    (48 ≤ c.toNat ∧ c.toNat ≤ 57 ∧ x = c.toNat - 48) ∨
    (97 ≤ c.toNat ∧ c.toNat ≤ 102 ∧ x = c.toNat - 87) ∨
    (65 ≤ c.toNat ∧ c.toNat ≤ 70 ∧ x = c.toNat - 55) := by
  unfold hexVal at h
  split_ifs at h with h1 h2 h3
  · exact Or.inl ⟨h1.1, h1.2, (Option.some.inj h).symm⟩
  · exact Or.inr (Or.inl ⟨h2.1, h2.2, (Option.some.inj h).symm⟩)
  · exact Or.inr (Or.inr ⟨h3.1, h3.2, (Option.some.inj h).symm⟩)

theorem hexVal_lt_16 {c : Char} {x : Nat} (h : hexVal c = some x) : x < 16 := by
  rcases hexVal_ranges h with ⟨a, b, e⟩ | ⟨a, b, e⟩ | ⟨a, b, e⟩ <;> omega

theorem isLineTerm_eq_false_of_hexVal {c : Char} {x : Nat}
    (h : hexVal c = some x) : isLineTerm c = false := by
  have hr := hexVal_ranges h
  simp only [isLineTerm, Bool.or_eq_false_iff, decide_eq_false_iff_not]
  omega

theorem isJsWhitespace_eq_false_of_hexVal {c : Char} {x : Nat}
    (h : hexVal c = some x) : isJsWhitespace c = false := by
  have hr := hexVal_ranges h
  simp only [isJsWhitespace, Bool.or_eq_false_iff, Bool.and_eq_false_iff,
    decide_eq_false_iff_not, not_le]
  omega

theorem dropWhile_of_hexVal {c : Char} {x : Nat} (h : hexVal c = some x)
    (l : List Char) : (c :: l).dropWhile isJsWhitespace = c :: l := by
  rw [List.dropWhile_cons, isJsWhitespace_eq_false_of_hexVal h]
  simp

theorem stripSign_of_hexVal {c : Char} {x : Nat} (h : hexVal c = some x)
    (l : List Char) : stripSign (c :: l) = (1, c :: l) := by
  have hr := hexVal_ranges h
  simp only [stripSign]
  rw [if_neg (by omega), if_neg (by omega)]

theorem strip0x_of_hexVal {c d : Char} {x y : Nat} (hc : hexVal c = some x)
    (hd : hexVal d = some y) (l : List Char) :
    strip0x (c :: d :: l) = c :: d :: l := by
  have h1 := hexVal_ranges hc
  have h2 := hexVal_ranges hd
  simp only [strip0x]
  rw [if_neg (by omega)]

theorem strip0x_single (c : Char) : strip0x [c] = [c] := rfl

theorem hexRunValue_pair {c d : Char} {x y : Nat} (hc : hexVal c = some x)
    (hd : hexVal d = some y) : hexRunValue 0 [c, d] = 16 * x + y := by
  simp [hexRunValue, hc, hd]
  omega

theorem jsParseInt16_pair {c d : Char} {x y : Nat} (hc : hexVal c = some x)
    (hd : hexVal d = some y) :
    jsParseInt16 [c, d] = some ((16 * x + y : Nat) : Int) := by
  simp only [jsParseInt16]
  rw [dropWhile_of_hexVal hc, stripSign_of_hexVal hc]
  simp only []
  rw [strip0x_of_hexVal hc hd]
  simp [startsWithHexDigit, hc, hexRunValue_pair hc hd]

theorem jsParseInt16_single {c : Char} {x : Nat} (hc : hexVal c = some x) :
    jsParseInt16 [c] = some ((x : Nat) : Int) := by
  simp only [jsParseInt16]
  rw [dropWhile_of_hexVal hc, stripSign_of_hexVal hc]
  simp only []
  rw [strip0x_single]
  simp [startsWithHexDigit, hc, hexRunValue]

theorem toUint8_coe {n : Nat} (h : n < 256) : toUint8 (some ((n : Nat) : Int)) = n := by
  simp only [toUint8]
  rw [Int.emod_eq_of_lt (by positivity) (by exact_mod_cast h)]
  simp

theorem chunk12_eq_pairChunks : ∀ l : List Char,
    (∀ c ∈ l, isLineTerm c = false) → chunk12 l = pairChunks l
  | [] => fun _ => rfl
  | [c] => fun h => by simp [chunk12, pairChunks, h c (by simp)]
  | c :: d :: rest => fun h => by
    have hc : isLineTerm c = false := h c (by simp)
    have hd : isLineTerm d = false := h d (by simp)
    have ih := chunk12_eq_pairChunks rest (fun e he => h e (by simp [he]))
    simp [chunk12, pairChunks, hc, hd, ih]

theorem pairChunks_ne_nil {l : List Char} (h : l ≠ []) : pairChunks l ≠ [] := by
  cases l with
  | nil => exact absurd rfl h
  | cons c t => cases t <;> simp [pairChunks]

theorem decodeHexAudio_of_ne_nil {s : List Char} (h : chunk12 s ≠ []) :
    decodeHexAudio s = some ((chunk12 s).map (fun g => toUint8 (jsParseInt16 g))) := by
  obtain ⟨g, gs, hg⟩ := List.exists_cons_of_ne_nil h
  unfold decodeHexAudio
  rw [hg]

theorem encodeHex_cons (b : Nat) (B : List Nat) :
    encodeHex (b :: B) = hexDigitChar (b / 16) :: hexDigitChar (b % 16) :: encodeHex B := by
  simp [encodeHex, encodeByte]

theorem pairChunks_encodeHex (B : List Nat) (l : List Char) :
    pairChunks (encodeHex B ++ l) = B.map encodeByte ++ pairChunks l := by
  induction B with
  | nil => simp [encodeHex]
  | cons b B ih =>
    rw [encodeHex_cons]
    simp only [List.cons_append, List.map_cons]
    rw [pairChunks, ih, encodeByte]

theorem hexVal_hexDigitChar {d : Nat} (h : d < 16) :
    hexVal (hexDigitChar d) = some d := by
  interval_cases d <;> rfl

theorem isLineTerm_hexDigitChar (n : Nat) : isLineTerm (hexDigitChar n) = false := by
  unfold hexDigitChar
  split <;> rfl

theorem encodeHex_no_lineTerm (B : List Nat) :
    ∀ c ∈ encodeHex B, isLineTerm c = false := by
  induction B with
  | nil => simp [encodeHex]
  | cons b B ih =>
    rw [encodeHex_cons]
    intro c hc
    rcases List.mem_cons.mp hc with rfl | hc2
    · exact isLineTerm_hexDigitChar _
    rcases List.mem_cons.mp hc2 with rfl | hc3
    · exact isLineTerm_hexDigitChar _
    · exact ih c hc3

theorem decode_encodeByte {b : Nat} (hb : b < 256) :
    toUint8 (jsParseInt16 (encodeByte b)) = b := by
  have h1 : hexVal (hexDigitChar (b / 16)) = some (b / 16) :=
    hexVal_hexDigitChar (by omega)
  have h2 : hexVal (hexDigitChar (b % 16)) = some (b % 16) :=
    hexVal_hexDigitChar (by omega)
  rw [encodeByte, jsParseInt16_pair h1 h2,
    show 16 * (b / 16) + b % 16 = b from by omega, toUint8_coe hb]

theorem map_decode_encode (B : List Nat) (hb : ∀ b ∈ B, b < 256) :
    (B.map encodeByte).map (fun g => toUint8 (jsParseInt16 g)) = B := by
  induction B with
  | nil => rfl
  | cons b B ih =>
    simp only [List.map_cons]
    rw [decode_encodeByte (hb b (by simp)), ih (fun e he => hb e (by simp [he]))]

/-! ## Lemmas about the controller -/

theorem run_cons (s : ControllerState) (e : Event) (es : List Event) :
    run s (e :: es) = run (step s e) es := rfl

theorem run_append (s : ControllerState) (es1 es2 : List Event) :
    run s (es1 ++ es2) = run (run s es1) es2 := by
  simp [run, List.foldl_append]

theorem step_data_recording {s : ControllerState} (h : s.mediaRecorder = some true)
    (c : List Nat) : step s (.data c) = { s with chunks := s.chunks ++ [c] } := by
  simp [step, h]

theorem run_data_chunks : ∀ (cs : List (List Nat)) (s : ControllerState),
    s.mediaRecorder = some true →
    run s (cs.map Event.data) = { s with chunks := s.chunks ++ cs }
  | [], s, _ => by simp [run]
  | c :: cs, s, h => by
    rw [List.map_cons, run_cons, step_data_recording h c,
      run_data_chunks cs { s with chunks := s.chunks ++ [c] } h]
    simp

theorem run_session (s : ControllerState) (hs : toggleCheck s = true)
    (cs : List (List Nat)) :
    run s (sessionEvents cs) =
      { mediaRecorder := some false, chunks := s.chunks ++ cs,
        uploads := s.uploads ++ [blobOfChunks (s.chunks ++ cs)] } := by
  have h1 : step s .toggle = { s with mediaRecorder := some true } := by
    simp [step, hs]
  rw [sessionEvents, run_cons, h1, run_append, run_data_chunks cs _ rfl]
  simp [run, step, toggleCheck]

/-! ## Lemmas about the fine-grained model -/

theorem set_concat_length (l : List Bool) (b b2 : Bool) :
    (l ++ [b]).set l.length b2 = l ++ [b2] := by
  simp [List.set_append]

theorem getD_concat_length (l : List Bool) (b : Bool) :
    (l ++ [b]).getD l.length false = b := by
  simp [List.getD, List.getElem?_append_right]

theorem fineCheck_concat {s : FineState} {front : List Bool} {last : Bool}
    (hh : s.handles = front ++ [last]) (hmr : s.mediaRecorder = some front.length) :
    fineCheck s = !last := by
  simp [fineCheck, hmr, hh, getD_concat_length]

theorem fineInv_init : FineInv fineInit := ⟨rfl, Or.inl ⟨rfl, rfl⟩⟩

theorem fineInv_atomicToggle {s : FineState} (h : FineInv s) :
    FineInv (atomicToggle s) := by
  obtain ⟨hp, hrest⟩ := h
  rcases hrest with ⟨hmr, hh⟩ | ⟨front, last, hh, hcnt, hmr⟩
  · have hc : fineCheck s = true := by simp [fineCheck, hmr]
    have h1 : fstep s .click = { s with pending := s.pending + 1 } := by
      simp [fstep, hc]
    have h2 : fstep { s with pending := s.pending + 1 } .acquire
        = { mediaRecorder := some s.handles.length,
            handles := s.handles ++ [true], pending := s.pending } := rfl
    rw [atomicToggle, if_pos hc, h1, h2]
    exact ⟨hp, Or.inr ⟨s.handles, true, rfl, by rw [hh]; rfl, rfl⟩⟩
  · cases last with
    | true =>
      have hc : fineCheck s = false := by rw [fineCheck_concat hh hmr]; rfl
      have h1 : fstep s .click = { s with handles := s.handles.set front.length false } := by
        simp [fstep, hc, hmr]
      rw [atomicToggle, if_neg (by simp [hc]), h1]
      refine ⟨hp, Or.inr ⟨front, false, ?_, hcnt, hmr⟩⟩
      rw [hh, set_concat_length]
    | false =>
      have hc : fineCheck s = true := by rw [fineCheck_concat hh hmr]; rfl
      have h1 : fstep s .click = { s with pending := s.pending + 1 } := by
        simp [fstep, hc]
      have h2 : fstep { s with pending := s.pending + 1 } .acquire
          = { mediaRecorder := some s.handles.length,
              handles := s.handles ++ [true], pending := s.pending } := rfl
      rw [atomicToggle, if_pos hc, h1, h2]
      refine ⟨hp, Or.inr ⟨front ++ [false], true, ?_, ?_, ?_⟩⟩
      · rw [hh]
      · simp [List.count_append, hcnt]
      · rw [hh]

theorem fineInv_le_one {s : FineState} (h : FineInv s) : countActive s ≤ 1 := by
  obtain ⟨-, hrest⟩ := h
  rcases hrest with ⟨-, hh⟩ | ⟨front, last, hh, hcnt, -⟩
  · simp [countActive, hh]
  · rw [countActive, hh, List.count_append, hcnt]
    cases last <;> decide

/-! ## Claim theorems -/

/-- C1 counterexample: the round trip fails for the empty byte sequence.
Its encoding is the empty string, on which `match(/.{1,2}/g)` returns
`null` and `.map` throws, so decoding errors instead of returning `[]`. -/
theorem hex_roundtrip_fails_on_empty :
    decodeHexAudio (encodeHex []) = none ∧ decodeHexAudio (encodeHex []) ≠ some [] := by
  decide

/-- C1 (amended): for every non-empty byte sequence `B`, encoding `B` as
two-hex-digit byte pairs (most-significant nibble first) and decoding via
the two-character-group / parse-base-16 procedure of `sendAudio`
reproduces `B` exactly; the empty sequence is excluded because its
encoding fails to decode. -/
theorem hex_roundtrip_nonempty (B : List Nat) (hne : B ≠ [])
    (hb : ∀ b ∈ B, b < 256) :
    decodeHexAudio (encodeHex B) = some B := by
  have hchunk : chunk12 (encodeHex B) = B.map encodeByte := by
    rw [chunk12_eq_pairChunks _ (encodeHex_no_lineTerm B)]
    simpa [pairChunks] using pairChunks_encodeHex B []
  have hnn : chunk12 (encodeHex B) ≠ [] := by
    rw [hchunk]
    simpa using hne
  rw [decodeHexAudio_of_ne_nil hnn, hchunk, map_decode_encode B hb]

/-- C1 witness: the bytes of "Hello" encode to "48656c6c6f", and decoding
that string yields them back. -/
theorem hex_roundtrip_nonempty_witness :
    ([72, 101, 108, 108, 111] : List Nat) ≠ [] ∧
    (∀ b ∈ ([72, 101, 108, 108, 111] : List Nat), b < 256) ∧
    encodeHex [72, 101, 108, 108, 111] = ['4', '8', '6', '5', '6', 'c', '6', 'c', '6', 'f'] ∧
    decodeHexAudio ['4', '8', '6', '5', '6', 'c', '6', 'c', '6', 'f']
      = some [72, 101, 108, 108, 111] := by
  refine ⟨by decide, by decide, by decide, ?_⟩
  rw [show (['4', '8', '6', '5', '6', 'c', '6', 'c', '6', 'f'] : List Char)
      = encodeHex [72, 101, 108, 108, 111] from by decide]
  exact hex_roundtrip_nonempty [72, 101, 108, 108, 111] (by decide) (by decide)

/-- C2: during one capture session started on an empty buffer, the payload
submitted by the single upload is the concatenation of the delivered
chunks in delivery order. -/
theorem single_session_payload (cs : List (List Nat)) :
    (run initState (sessionEvents cs)).uploads = [cs.flatten] := by
  rw [run_session initState rfl cs]
  simp [initState, blobOfChunks]

/-- C3: the chunk buffer is never cleared between sessions: after two
record-then-upload cycles the second upload carries the first session's
chunks followed by the second session's chunks, not the second session's
chunks alone. -/
theorem two_sessions_payload (cs1 cs2 : List (List Nat)) :
    (run initState (sessionEvents cs1 ++ sessionEvents cs2)).uploads
      = [cs1.flatten, (cs1 ++ cs2).flatten] := by
  rw [run_append, run_session initState rfl cs1, run_session _ (by rfl) cs2]
  simp [initState, blobOfChunks]

/-- C4: a toggle with no recorder or an inactive recorder starts a capture
whose data events append each delivered chunk to the buffer and performs
no upload; a toggle with an active recorder stops it, which fires `onstop`
and records exactly one upload of the buffered chunks. -/
theorem toggle_transitions (s : ControllerState) (c : List Nat) :
    ((s.mediaRecorder = none ∨ s.mediaRecorder = some false) →
      (step s .toggle).mediaRecorder = some true ∧
      (step s .toggle).uploads = s.uploads ∧
      (step (step s .toggle) (.data c)).chunks = (step s .toggle).chunks ++ [c]) ∧
    (s.mediaRecorder = some true →
      (step s .toggle).mediaRecorder = some false ∧
      (step s .toggle).uploads = s.uploads ++ [blobOfChunks s.chunks]) := by
  constructor
  · intro h
    have hc : toggleCheck s = true := by
      rcases h with h | h <;> simp [toggleCheck, h]
    simp [step, hc]
  · intro h
    have hc : toggleCheck s = false := by simp [toggleCheck, h]
    simp [step, hc]

/-- C4 witness: both toggle directions at concrete states. -/
theorem toggle_transitions_witness :
    ((step initState .toggle).mediaRecorder = some true ∧
     (step initState .toggle).uploads = initState.uploads ∧
     (step (step initState .toggle) (.data [7])).chunks
       = (step initState .toggle).chunks ++ [[7]]) ∧
    ((step { initState with mediaRecorder := some true } .toggle).mediaRecorder
       = some false ∧
     (step { initState with mediaRecorder := some true } .toggle).uploads
       = [] ++ [blobOfChunks []]) :=
  ⟨(toggle_transitions initState [7]).1 (Or.inl rfl),
   (toggle_transitions { initState with mediaRecorder := some true } [7]).2 rfl⟩

/-- C5 counterexample: `"0af"` is not rejected and is not truncated to
`[0x0a]`; the trailing lone `f` is decoded as the extra byte 15. -/
theorem odd_hex_0af_not_truncated :
    decodeHexAudio ['0', 'a', 'f'] = some [10, 15] ∧
    ¬(decodeHexAudio ['0', 'a', 'f'] = none ∨
      decodeHexAudio ['0', 'a', 'f'] = some [10]) := by
  decide

/-- C5 (amended): for an odd-length hex string (even hex prefix plus one
trailing hex digit) decoding raises no error and drops nothing: the
trailing lone digit is decoded as one additional final byte whose value
is that digit's. -/
theorem odd_hex_appends_trailing_digit (B : List Nat) (d : Nat)
    (hb : ∀ b ∈ B, b < 256) (hd : d < 16) :
    decodeHexAudio (encodeHex B ++ [hexDigitChar d]) = some (B ++ [d]) := by
  have hlt : ∀ c ∈ encodeHex B ++ [hexDigitChar d], isLineTerm c = false := by
    intro c hc
    rcases List.mem_append.mp hc with hc | hc
    · exact encodeHex_no_lineTerm B c hc
    · simp only [List.mem_singleton] at hc
      subst hc
      exact isLineTerm_hexDigitChar d
  have hchunk : chunk12 (encodeHex B ++ [hexDigitChar d])
      = B.map encodeByte ++ [[hexDigitChar d]] := by
    rw [chunk12_eq_pairChunks _ hlt, pairChunks_encodeHex]
    rfl
  have hnn : chunk12 (encodeHex B ++ [hexDigitChar d]) ≠ [] := by
    rw [hchunk]
    simp
  rw [decodeHexAudio_of_ne_nil hnn, hchunk, List.map_append, map_decode_encode B hb]
  simp only [List.map_cons, List.map_nil]
  rw [jsParseInt16_single (hexVal_hexDigitChar hd), toUint8_coe (by omega)]

/-- C5 witness: `"0af"` decodes to `[10, 15]` via the amended statement. -/
theorem odd_hex_appends_trailing_digit_witness :
    (∀ b ∈ ([10] : List Nat), b < 256) ∧ (15 : Nat) < 16 ∧
    decodeHexAudio ['0', 'a', 'f'] = some [10, 15] := by
  refine ⟨by decide, by decide, ?_⟩
  rw [show (['0', 'a', 'f'] : List Char) = encodeHex [10] ++ [hexDigitChar 15] from by decide]
  exact odd_hex_appends_trailing_digit [10] 15 (by decide) (by decide)

/-- C6 counterexample: a second click arriving while the first click's
`getUserMedia` is still suspended passes the inactivity check again; after
both acquisitions resume, two recorders are active simultaneously. -/
theorem double_click_two_active :
    countActive (fineRun fineInit [.click, .click, .acquire, .acquire]) = 2 ∧
    ¬countActive (fineRun fineInit [.click, .click, .acquire, .acquire]) ≤ 1 := by
  decide

/-- C6 (amended): when toggles are serialized — each click's stream
acquisition completes before the next trigger — every reachable state has
at most one active capture handle. -/
theorem serialized_toggles_one_active (n : Nat) :
    countActive (atomicToggle^[n] fineInit) ≤ 1 := by
  have h : FineInv (atomicToggle^[n] fineInit) := by
    induction n with
    | zero => exact fineInv_init
    | succ n ih =>
      rw [Function.iterate_succ_apply']
      exact fineInv_atomicToggle ih
  exact fineInv_le_one h

/-- C7: every upload is one POST to the fixed endpoint with the `voice_id`
query parameter, a single form part named `audio`, filename `audio.wav`,
content type `audio/wav`, and the concatenated chunks as payload; with
chunks of 100 and 200 bytes, the one upload of the session carries 300
bytes. -/
theorem upload_request_shape (cs : List (List Nat)) (c1 c2 : List Nat)
    (h1 : c1.length = 100) (h2 : c2.length = 200) :
    sendAudioRequest cs =
      { method := "POST",
        url := "http://localhost:8000/assistant?voice_id=your-id-here",
        parts := [{ name := "audio", filename := "audio.wav",
                    contentType := "audio/wav", payload := cs.flatten }] } ∧
    (sendAudioRequest [c1, c2]).parts.map (fun p => p.payload.length) = [300] ∧
    (run initState (sessionEvents [c1, c2])).uploads.map List.length = [300] := by
  refine ⟨rfl, ?_, ?_⟩
  · simp [sendAudioRequest, blobOfChunks, h1, h2]
  · rw [run_session initState rfl [c1, c2]]
    simp [initState, blobOfChunks, h1, h2]

/-- C7 witness: concrete 100- and 200-byte chunks give a 300-byte part. -/
theorem upload_request_shape_witness :
    (List.replicate 100 (0 : Nat)).length = 100 ∧
    (List.replicate 200 (0 : Nat)).length = 200 ∧
    (sendAudioRequest [List.replicate 100 (0 : Nat), List.replicate 200 (0 : Nat)]).parts.map
      (fun p => p.payload.length) = [300] := by
  refine ⟨by rw [List.length_replicate], by rw [List.length_replicate], ?_⟩
  exact (upload_request_shape [] (List.replicate 100 0) (List.replicate 200 0)
    (by rw [List.length_replicate]) (by rw [List.length_replicate])).2.1

/-- C8: no failure is caught: whenever the response phase fails — network
failure, non-JSON body, or missing `audio` field — `sendAudio` surfaces
the failure as an uncaught rejection and the playback source is left
unchanged. -/
theorem failures_uncaught (prevSrc : Option (List Nat)) (r : Fetched) (e : JsErr)
    (he : sendAudioResponsePhase r = .error e) :
    sendAudioEffect prevSrc r = (prevSrc, some e) ∧
    sendAudioResponsePhase .failure = .error .fetchFailed ∧
    sendAudioResponsePhase (.success .invalidJson) = .error .jsonParseFailed ∧
    sendAudioResponsePhase (.success (.validJson none)) = .error .typeErrorUndefined := by
  refine ⟨?_, rfl, rfl, rfl⟩
  simp [sendAudioEffect, he]

/-- C8 witness: a network failure leaves the previous source in place. -/
theorem failures_uncaught_witness :
    sendAudioResponsePhase .failure = .error .fetchFailed ∧
    sendAudioEffect (some [1, 2]) .failure = (some [1, 2], some .fetchFailed) :=
  ⟨rfl, (failures_uncaught (some [1, 2]) .failure .fetchFailed rfl).1⟩

/-- C9: an empty `audio` string fails to decode (the grouping step yields
no groups, `match` returns `null`, and `.map` throws) rather than giving
an empty byte sequence, so no playback source is assigned. -/
theorem empty_audio_decode_error :
    decodeHexAudio [] = none ∧
    ∀ prevSrc : Option (List Nat),
      sendAudioEffect prevSrc (.success (.validJson (some [])))
        = (prevSrc, some .typeErrorNullMap) :=
  ⟨rfl, fun _ => rfl⟩

/-- C10 counterexample: `"\n"` is non-empty and non-hex yet decoding
throws (no group matches), and the group `" f"` has no leading hex digit
yet is stored as 15, not 0 (`parseInt` trims the whitespace first). -/
theorem decode_non_hex_cex :
    ((['\n'] : List Char) ≠ [] ∧ hexVal '\n' = none ∧
      decodeHexAudio ['\n'] = none) ∧
    (hexVal ' ' = none ∧ decodeHexAudio [' ', 'f'] = some [15] ∧ (15 : Nat) ≠ 0) := by
  decide

/-- C10 (amended): for every non-empty string without line terminators,
decoding raises no error: the string splits into consecutive groups of
two (a lone trailing character forming a last group of one) and each
group is parsed by `parseInt(g, 16)` — leading whitespace trimmed,
optional sign, optional `0x`/`0X`, then the longest leading run of hex
digits, NaN if that run is empty — and stored via `Uint8`-conversion
(NaN to 0, integers modulo 256).  A non-empty string whose characters
are all line terminators instead raises an error. -/
theorem decode_total_without_lineTerms (s : List Char) (hne : s ≠ [])
    (h : ∀ c ∈ s, isLineTerm c = false) :
    decodeHexAudio s = some ((pairChunks s).map (fun g => toUint8 (jsParseInt16 g))) := by
  have hc := chunk12_eq_pairChunks s h
  have hnn : chunk12 s ≠ [] := by
    rw [hc]
    exact pairChunks_ne_nil hne
  rw [decodeHexAudio_of_ne_nil hnn, hc]

/-- C10 witness: `"4z"` decodes without error to the single byte 4 (the
longest hex run of the group `"4z"` is `"4"`). -/
theorem decode_total_without_lineTerms_witness :
    (['4', 'z'] : List Char) ≠ [] ∧
    (∀ c ∈ (['4', 'z'] : List Char), isLineTerm c = false) ∧
    decodeHexAudio ['4', 'z'] = some [4] := by
  refine ⟨by decide, by decide, ?_⟩
  rw [decode_total_without_lineTerms ['4', 'z'] (by decide) (by decide)]
  decide

end VoiceClone
